import Mathlib

namespace UniqTabs

/-!
Verification of the tab sorting / deduplication core of the `uniqtabs`
browser extension, as implemented by the most-evolved variant of
`src/webextension/background.js` (the variant defining `class TabProps`,
`compareTabsOrder`, `compareTabsOrderAuto`, `compareTabsSimilarity`,
`compareTokens` and `WindowProps.getHostnameTokens`).

The JavaScript code is shallowly embedded: pure functions become Lean
functions, the in-place mutation of the `isDuplicate` flag performed by
`compareTabsSimilarity` is made explicit by returning updated records,
and host/platform services (the WHATWG `URL` constructor,
`String.prototype.localeCompare`, `Array.prototype.sort`) are modelled
by executable Lean functions documented at their definitions.
-/
/-! ## String comparison

`String.prototype.localeCompare` (no locale argument) is modelled as
code-point-wise lexicographic three-way comparison returning -1, 0 or 1.
The model keeps the properties the program relies on: the result is `0`
exactly on equal strings, its sign flips when the arguments are swapped,
and the strict order is transitive.
-/
/-- Lexicographic three-way comparison of character lists. -/
def strCmpAux : List Char → List Char → Int
  | [], [] => 0
  | [], _ :: _ => -1
  | _ :: _, [] => 1
  | a :: as, b :: bs => if a < b then -1 else if b < a then 1 else strCmpAux as bs

/-- Model of the host's `String.prototype.localeCompare`. -/
def localeCompare (s t : String) : Int := strCmpAux s.data t.data

/-! ## Splitting strings

Models of `String.prototype.split` with a one-character separator
(`hostname.split('.')`, `pathname.split('/')`) and of
`pathname.replace(/^\/|\/$/g, "")` (which removes at most one leading and
one trailing slash).
-/
/-- Splitting a character list on a separator character; the result is
never empty, matching `"".split(sep) === [""]` in JavaScript. -/
def splitOnChar (c : Char) : List Char → List (List Char)
  | [] => [[]]
  | x :: xs =>
    let rest := splitOnChar c xs
    if x = c then [] :: rest
    else
      match rest with
      | [] => [[x]]
      | r :: rs => (x :: r) :: rs

/-- Model of JavaScript `s.split(c)` for a single-character separator `c`. -/
def jsSplit (s : String) (c : Char) : List String :=
  (splitOnChar c s.data).map fun l => String.mk l

/-- Model of `pathname.replace(/^\/|\/$/g, "")` from the `TabProps`
constructor: the regex removes one leading slash and one trailing slash. -/
def trimSlashes (s : String) : String :=
  let l₁ := match s.data with
    | '/' :: rest => rest
    | other => other
  let l₂ := if l₁.getLast? = some '/' then l₁.dropLast else l₁
  String.mk l₂

/-! ## The Tokenizer

`WindowProps.getHostnameTokens` and `WindowProps.getPathnameTokens` from
background.js. The per-window caches those methods maintain are pure
memoization keyed by the input string, so the embedding is the cache-free
computation. JavaScript's UTF-16 `String.length` is modelled by the
code-point count, which agrees on all ASCII hostnames.
-/
/-- `WindowProps.getHostnameTokens`: reverse the dot-split labels, then
take two labels as the TLD group when there are more than 2 labels and
the reversed label at position 1 has length at most 3, otherwise one. -/
def splitHostname (hostname : String) : List String × List String :=
  let tokens := (jsSplit hostname '.').reverse
  let splitIndex := if tokens.length > 2 ∧ (tokens.getD 1 "").length ≤ 3 then 2 else 1
  (tokens.take splitIndex, tokens.drop splitIndex)

/-- `WindowProps.getPathnameTokens`: split the (already slash-trimmed)
pathname on `/`. -/
def splitPathname (pathname : String) : List String := jsSplit pathname '/'

/-! ## The Token Comparator

`compareTokens` from background.js (the `criteriaBase` variant): compare
element-wise until a difference, then return it; otherwise return the
length difference. The JavaScript reference-equality fast path
(`tokensA === tokensB`) is modelled as value equality; on value-equal
inputs the slow path returns 0 as well, so the model is exact.
-/
def compareTokensAux : List String → List String → Int
  | a :: as, b :: bs =>
    let r := localeCompare a b
    if r = 0 then compareTokensAux as bs else r
  | _, _ => 0

def compareTokens (tokensA tokensB : List String) : Int :=
  if tokensA = tokensB then 0
  else
    let r := compareTokensAux tokensA tokensB
    if r = 0 then (tokensA.length : Int) - (tokensB.length : Int) else r

/-- The branch-free form of `compareTokens`. -/
def cmpFull (tokensA tokensB : List String) : Int :=
  if compareTokensAux tokensA tokensB = 0
  then (tokensA.length : Int) - (tokensB.length : Int)
  else compareTokensAux tokensA tokensB

/-! ## Criteria

The `criteria` / `criteriaBase` arrays built by the `TabProps`
constructor are heterogeneous JavaScript arrays holding numbers
(`containerIndex`, and the boolean `hasPathname`, which the comparator's
`default` branch subtracts as 0/1), strings, and token arrays.
`compareTabsOrder` and `compareTabsSimilarity` dispatch on
`typeof criterionA`. Criteria arrays for one sort mode are positionally
aligned by construction, so mixed-type comparisons never occur in the
program; the model completes those unreachable cases with a constant
tag order so that the comparison stays total. -/
inductive Criterion where
  | num (n : Int)
  | str (s : String)
  | toks (ts : List String)
deriving DecidableEq, Repr

def compareCriterion : Criterion → Criterion → Int
  | .num a, .num b => a - b
  | .str a, .str b => localeCompare a b
  | .toks a, .toks b => compareTokens a b
  | .num _, _ => -1
  | _, .num _ => 1
  | .str _, .toks _ => -1
  | .toks _, .str _ => 1

/-- The criterion loop shared by `compareTabsOrder` and
`compareTabsSimilarity`: return the first non-zero criterion comparison,
0 when every position ties. (The JavaScript loop runs over
`criteriaA.length`; both arrays always have the same length.) -/
def cmpCriteria : List Criterion → List Criterion → Int
  | a :: as, b :: bs =>
    let r := compareCriterion a b
    if r = 0 then cmpCriteria as bs else r
  | _, _ => 0

/-! ## Tab Descriptors

`TabProps` as constructed by the `TabProps` class constructor: the
primitive fields stored on `this`, with `pathname` already slash-trimmed
and `queryString` already gated by the `sortByQueryString` preference
(both happen inside the constructor). The lazily memoized getters
`lowerDomainTokens`, `tldTokens`, `pathnameTokens` and `maybeSlug` are
pure functions of these fields and are embedded as eager functions; the
per-window token caches they consult are pure memoization. -/
structure TabProps where
  containerIndex : Int
  protocol : String
  hostname : String
  pathname : String
  queryString : String
  hash : String
  title : String
  id : Nat
  index : Int
  isActive : Bool
  isBlank : Bool
  isDuplicate : Bool
  status : String
deriving DecidableEq, Repr

/-- The `lowerDomainTokens` getter. -/
def lowerDomainTokens (t : TabProps) : List String := (splitHostname t.hostname).2

/-- The `tldTokens` getter. -/
def tldTokens (t : TabProps) : List String := (splitHostname t.hostname).1

/-- The `pathnameTokens` getter. -/
def pathnameTokens (t : TabProps) : List String := splitPathname t.pathname

/-- `hasPathname = pathnameTrimmed !== ""` from the constructor. -/
def hasPathname (t : TabProps) : Bool := t.pathname ≠ ""

/-- ASCII model of
`title.replace(/ /g,"_").toLocaleLowerCase().replace(/\W/g, "")`. -/
def slugify (title : String) : String :=
  String.mk (((title.data.map fun c => if c = ' ' then '_' else c).map Char.toLower).filter
    fun c => c.isAlphanum || c = '_')

/-- `s.charAt(0)`: the first character as a string, `""` on the empty
string. -/
def charAt0 (s : String) : String :=
  match s.data with
  | [] => ""
  | c :: _ => String.mk [c]

/-- The `maybeSlug` getter: the last pathname token, accepted as a slug
only when its first character matches the first character of the slugged
title. (`pathnameTokens` is never empty, since `split` never returns an
empty array.) -/
def maybeSlug (t : TabProps) : String :=
  let pathEnd := (pathnameTokens t).getLastD ""
  if charAt0 pathEnd = charAt0 (slugify t.title) then pathEnd else ""

/-- JavaScript booleans compared by the comparator's `default` branch
are subtracted as numbers 0/1. -/
def boolNum (b : Bool) : Criterion := .num (if b then 1 else 0)

/-- The `criteriaBase` array from the `TabProps` constructor. -/
def criteriaBase (t : TabProps) : List Criterion :=
  [.num t.containerIndex, .str t.protocol, .toks (lowerDomainTokens t), .toks (tldTokens t),
   boolNum (hasPathname t), .toks (pathnameTokens t), .str t.queryString, .str t.hash,
   .str t.title]

/-- The mode-dependent `criteria` array from the `TabProps` constructor
(`switch (sortMode)`). -/
def criteria (sortMode : Nat) (t : TabProps) : List Criterion :=
  if sortMode = 1 then
    [.num t.containerIndex, .str t.protocol, .toks (lowerDomainTokens t), .toks (tldTokens t),
     boolNum (hasPathname t), .str t.title, .toks (pathnameTokens t), .str t.queryString,
     .str t.hash]
  else if sortMode = 2 then criteriaBase t
  else if sortMode = 3 then
    [.num t.containerIndex, .str t.title, .str t.protocol, .toks (lowerDomainTokens t),
     .toks (tldTokens t), boolNum (hasPathname t), .toks (pathnameTokens t),
     .str t.queryString, .str t.hash]
  else if sortMode = 4 then
    [.num t.containerIndex, .str t.protocol, .toks (lowerDomainTokens t), .toks (tldTokens t)]
  else
    [.num t.containerIndex]

/-- `compareTabsOrder` from background.js (the stored `criteria` arrays
are recomputed from the descriptor fields; they are pure functions of
them). -/
def compareTabsOrder (sortMode : Nat) (a b : TabProps) : Int :=
  cmpCriteria (criteria sortMode a) (criteria sortMode b)

/-- The first-difference loop of `compareTabsOrderAuto`: the first
non-zero `localeCompare` over the common prefix together with the index
at which the loop stopped. -/
def firstDiff : List String → List String → Nat → Int × Nat
  | a :: as, b :: bs, i =>
    let r := localeCompare a b
    if r = 0 then firstDiff as bs (i + 1) else (r, i)
  | _, _, i => (0, i)

/-- The final `title || queryString || hash` comparison of
`compareTabsOrderAuto`. -/
def autoTitleQueryHash (a b : TabProps) : Int :=
  if localeCompare a.title b.title ≠ 0 then localeCompare a.title b.title
  else if localeCompare a.queryString b.queryString ≠ 0 then
    localeCompare a.queryString b.queryString
  else localeCompare a.hash b.hash

/-- The part of `compareTabsOrderAuto` that runs after the base criteria
tie: the pathname token loop, the length tie-break, the slug heuristic,
and the title/query/hash fallback. -/
def autoTail (a b : TabProps) : Int :=
  if ((pathnameTokens a).length : Int) - ((pathnameTokens b).length : Int) ≠ 0 then
    if (firstDiff (pathnameTokens a) (pathnameTokens b) 0).1 ≠ 0 then
      (firstDiff (pathnameTokens a) (pathnameTokens b) 0).1
    else ((pathnameTokens a).length : Int) - ((pathnameTokens b).length : Int)
  else if (firstDiff (pathnameTokens a) (pathnameTokens b) 0).1 ≠ 0 ∧
      (firstDiff (pathnameTokens a) (pathnameTokens b) 0).2 > 1 ∧
      maybeSlug a ≠ "" ∧ maybeSlug b ≠ "" then
    localeCompare (maybeSlug a) (maybeSlug b)
  else autoTitleQueryHash a b

/-- `compareTabsOrderAuto` from background.js. -/
def compareTabsOrderAuto (a b : TabProps) : Int :=
  if compareTabsOrder 4 a b ≠ 0 then compareTabsOrder 4 a b else autoTail a b

/-- The comparator selection in `processTabs`:
`sortMode === 4 ? compareTabsOrderAuto : compareTabsOrder`. -/
def orderCompare (sortMode : Nat) (a b : TabProps) : Int :=
  if sortMode = 4 then compareTabsOrderAuto a b else compareTabsOrder sortMode a b

/-- `compareTabsSimilarity` from background.js: compares the
`criteriaBase` arrays and, on a tie, sets an `isDuplicate` flag. The
JavaScript in-place mutation of `propsA` / `propsB` is embedded by
returning the updated records alongside the comparison result. -/
def compareTabsSimilarity (a b : TabProps) : Int × TabProps × TabProps :=
  let result := cmpCriteria (criteriaBase a) (criteriaBase b)
  if result = 0 then
    if a.isActive then (result, a, { b with isDuplicate := true })
    else if b.isActive ∨ a.index < b.index then (result, { a with isDuplicate := true }, b)
    else (result, a, b)
  else (result, a, b)

/-- The `SORT_MODES` map from background.js. -/
def SORT_MODES : List (String × Nat) :=
  [("none", 0), ("host_title_path", 1), ("host_path_title", 2), ("title_host_path", 3),
   ("auto", 4)]

/-- `SORT_MODES.get` (`undefined` becomes `none`). -/
def sortModeOf (s : String) : Option Nat := SORT_MODES.lookup s

/-- The `BLANK_TAB_URLS` set from background.js. -/
def BLANK_TAB_URLS : List String :=
  ["about:blank", "about:newtab", "about:privatebrowsing", "chrome://newtab/"]

/-! ## The sort model

ECMA-262 requires `Array.prototype.sort(cmp)` to be a stable sort; when
`cmp` is a consistent comparator every stable sort algorithm produces
the same (unique) output, so the choice of algorithm is immaterial
there. The model is a stable insertion sort, which is structurally
recursive and hence kernel-computable. For the one inconsistent
comparator in the program — `compareTabsOrderAuto`, whose strict order
is not transitive — ECMA-262 leaves the resulting order
implementation-defined, and the model's output is one faithful choice of
stable sort. -/
/-- Insert `a` after every element `b` of `l` with `le b a` (so after
all earlier-arrived elements that tie with `a`: stability). -/
def insertOrdered (le : α → α → Bool) (a : α) : List α → List α
  | [] => [a]
  | b :: l => if le b a then b :: insertOrdered le a l else a :: b :: l

/-- Stable insertion sort, inserting elements in array order. -/
def stableSort (le : α → α → Bool) (l : List α) : List α :=
  l.foldl (fun acc a => insertOrdered le a acc) []

/-! ## The URL host API

The `TabProps` constructor destructures `new URL(url || "")`. A
successfully constructed `URL` object always has all the destructured
accessors, so the destructuring defaults (`protocol = ":"` etc.) can
never apply; on unparsable input the constructor throws instead, which
the model expresses with `none`. -/
structure URLRec where
  protocol : String
  hostname : String
  pathname : String
  search : String
  hash : String
deriving DecidableEq, Repr

def isSchemeChar (c : Char) : Bool := c.isAlphanum || c = '+' || c = '-' || c = '.'

/-- Scan a scheme after its (already validated and lowercased) first
character: stops at `':'`, fails on any character not allowed in a
scheme. -/
def schemeAux : List Char → List Char → Option (List Char × List Char)
  | [], _ => none
  | c :: cs, acc =>
    if c = ':' then some (acc.reverse, cs)
    else if isSchemeChar c then schemeAux cs (c.toLower :: acc)
    else none

/-- Split a character list at the first occurrence of any stop
character. -/
def splitUntil (stops : List Char) : List Char → List Char × List Char
  | [] => ([], [])
  | c :: cs =>
    if c ∈ stops then ([], c :: cs)
    else
      let p := splitUntil stops cs
      (c :: p.1, p.2)

/-- Model of the host's WHATWG `URL` constructor, `new URL(input)` with
no base. Parsing fails — the constructor throws — when the input has no
valid `scheme ":"` prefix (in particular on the empty string), and for
the special schemes `http`/`https` when the authority is empty. Scheme
and host are lowercased; `pathname`/`search`/`hash` are split on
`/ ? #`; `hash` is `""` without a fragment and `"#" ++ fragment` with
one; `search` models `url.searchParams.toString()`, the serialized query
without `'?'` (exact for the simple `k=v&…` queries that occur here;
percent-encoding normalisation, userinfo, ports and IP parsing are
outside the model and unused by the program). -/
def jsURL (input : String) : Option URLRec :=
  match input.data with
  | [] => none
  | c0 :: rest0 =>
    if ¬ c0.isAlpha then none
    else
      match schemeAux rest0 [c0.toLower] with
      | none => none
      | some (schemeChars, rest) =>
        let scheme := String.mk schemeChars
        let special := scheme = "http" ∨ scheme = "https"
        let mkTail : List Char → String × String := fun tail =>
          let q := splitUntil ['#'] tail
          match q.1 with
          | '?' :: qs =>
            (String.mk qs,
              match q.2 with
              | '#' :: [] => ""
              | '#' :: fs => String.mk ('#' :: fs)
              | _ => "")
          | _ =>
            ("",
              match q.2 with
              | '#' :: [] => ""
              | '#' :: fs => String.mk ('#' :: fs)
              | _ => "")
        if special then
          let afterSlashes := rest.dropWhile (fun c => c = '/' || c = '\\')
          let hostSplit := splitUntil ['/', '?', '#'] afterSlashes
          if hostSplit.1 = [] then none
          else
            let pathSplit := splitUntil ['?', '#'] hostSplit.2
            let pathname := if pathSplit.1 = [] then "/" else String.mk pathSplit.1
            let sh := mkTail pathSplit.2
            some { protocol := scheme ++ ":",
                   hostname := String.mk (hostSplit.1.map Char.toLower),
                   pathname := pathname, search := sh.1, hash := sh.2 }
        else
          match rest with
          | '/' :: '/' :: afterSlashes =>
            let hostSplit := splitUntil ['/', '?', '#'] afterSlashes
            let pathSplit := splitUntil ['?', '#'] hostSplit.2
            let sh := mkTail pathSplit.2
            some { protocol := scheme ++ ":",
                   hostname := String.mk (hostSplit.1.map Char.toLower),
                   pathname := String.mk pathSplit.1, search := sh.1, hash := sh.2 }
          | _ =>
            let pathSplit := splitUntil ['?', '#'] rest
            let sh := mkTail pathSplit.2
            some { protocol := scheme ++ ":", hostname := "",
                   pathname := String.mk pathSplit.1, search := sh.1, hash := sh.2 }

/-! ## Tab Records, containers and descriptor construction -/
/-- A host Tab Record as consumed by the `TabProps` constructor (a
`browser.tabs.query` result). Fields JavaScript may leave `undefined`
are `Option`s. -/
structure Tab where
  active : Bool
  cookieStoreId : Option String
  id : Nat
  index : Int
  status : String
  title : Option String
  url : Option String
  windowId : Nat
deriving DecidableEq, Repr

/-- The `sortPrefs` object built in `processTabs`: `sortMode` is the
`SORT_MODES` value of `pref_tabs_sort_by_parts` (`0` stands for
`"none"`; any unmapped value behaves like the `switch` default, which
the `criteria` embedding reproduces for every number outside 1–4). -/
structure SortPrefs where
  sortMode : Nat
  sortByQueryString : Bool
deriving DecidableEq, Repr

/-- The container `Map` built in `processTabs`:
`new Map(containersArray.map((c, index) => [c.cookieStoreId, index]))`. -/
def buildContainers (cookieStoreIds : List String) : List (String × Nat) :=
  cookieStoreIds.enum.map fun p => (p.2, p.1)

/-- `Map.prototype.get`: the most recently set binding wins. -/
def mapGet (m : List (String × Nat)) (k : String) : Option Nat :=
  m.reverse.lookup k

/-- `containers && containers.get(cookieStoreId) || -1` from the
`TabProps` constructor: `-1` when the container capability is absent
(`containers === null`), when the id has no binding (`undefined` is
falsy), and — because `0` is also falsy in JavaScript — when the
container sits at position 0 of the enumeration. -/
def containerIndexOf (containers : Option (List (String × Nat)))
    (cid : Option String) : Int :=
  match containers with
  | none => -1
  | some m =>
    match cid with
    | none => -1
    | some k =>
      match mapGet m k with
      | none => -1
      | some n => if n = 0 then -1 else (n : Int)

/-- The `TabProps` constructor. `new URL(tab.url || "")` throws on an
unparsable URL string; the thrown exception is modelled by `none`. -/
def TabProps.make (tab : Tab) (containers : Option (List (String × Nat)))
    (prefs : SortPrefs) : Option TabProps :=
  match jsURL (tab.url.getD "") with
  | none => none
  | some u =>
    some {
      containerIndex := containerIndexOf containers tab.cookieStoreId
      protocol := u.protocol
      hostname := u.hostname
      pathname := trimSlashes u.pathname
      queryString := if prefs.sortByQueryString then u.search else ""
      hash := u.hash
      title := tab.title.getD ""
      id := tab.id
      index := tab.index
      isActive := tab.active
      isBlank := (tab.url.map fun s => BLANK_TAB_URLS.contains s).getD false
      isDuplicate := false
      status := tab.status }

/-! ## `processTabs`: sorting and culling -/
/-- `tabPropsArray.sort(compareFunction)` from `processTabs`. -/
def sortTabs (sortMode : Nat) (l : List TabProps) : List TabProps :=
  stableSort (fun a b => decide (orderCompare sortMode a b ≤ 0)) l

/-- The `unwantedTabs` filter from `processTabs`. -/
def unwantedTabs (deduplicate : Bool) (tabPropsArray : List TabProps) : List TabProps :=
  tabPropsArray.filter fun t =>
    t.status == "complete" && (t.isBlank || (deduplicate && t.isDuplicate))

structure CullResult where
  createdTab : Bool
  removed : List TabProps
deriving DecidableEq, Repr

/-- The culling stage of `processTabs`: a fresh placeholder tab is
created exactly when the first unpinned tab sat at index 0 and every
descriptor is unwanted (`index === 0 && tabPropsArray.length ===
unwantedTabs.length`); the unwanted tabs are removed in either
branch. -/
def cullStage (index : Int) (deduplicate : Bool)
    (tabPropsArray : List TabProps) : CullResult :=
  let uw := unwantedTabs deduplicate tabPropsArray
  { createdTab := index == 0 && tabPropsArray.length == uw.length
    removed := uw }

/-- Number of unpinned tabs left in the window after the culling stage:
the survivors plus the placeholder, if one was created. -/
def remainingUnpinned (index : Int) (deduplicate : Bool)
    (tabPropsArray : List TabProps) : Nat :=
  let r := cullStage index deduplicate tabPropsArray
  tabPropsArray.length - r.removed.length + (if r.createdTab then 1 else 0)

/-! ## Same-family clustering machinery (for the `host_title_path`,
`host_path_title` and `auto` modes, whose criteria arrays share the same
four leading criteria) -/
/-- The four leading order criteria shared by the criteria arrays of
modes 1 (`host_title_path`), 2 (`host_path_title`) and 4 (`auto`). -/
def leadCriteria (t : TabProps) : List Criterion :=
  [.num t.containerIndex, .str t.protocol, .toks (lowerDomainTokens t),
   .toks (tldTokens t)]

/-- Two descriptors of the same "origin family": same container index,
same scheme, same lower-domain tokens and same TLD tokens. -/
def sameFamily (a b : TabProps) : Prop :=
  a.containerIndex = b.containerIndex ∧ a.protocol = b.protocol ∧
    lowerDomainTokens a = lowerDomainTokens b ∧ tldTokens a = tldTokens b

instance (a b : TabProps) : Decidable (sameFamily a b) := by
  unfold sameFamily
  infer_instance

/-- The non-strict order induced on the leading criteria. -/
def leadLe (a b : TabProps) : Prop := cmpCriteria (leadCriteria a) (leadCriteria b) ≤ 0

/-! ## Shared concrete descriptors for examples -/
/-- A concrete descriptor template: an inactive, complete, non-blank
https tab of `example.com` with empty pathname/query/hash/title. -/
def exTab : TabProps :=
  { containerIndex := -1, protocol := "https:", hostname := "example.com",
    pathname := "", queryString := "", hash := "", title := "",
    id := 0, index := 0, isActive := false, isBlank := false,
    isDuplicate := false, status := "complete" }

theorem strCmpAux_eq_zero_iff : ∀ {a b : List Char}, strCmpAux a b = 0 ↔ a = b := by
  intro a
  induction a with
  | nil => intro b; cases b <;> simp [strCmpAux]
  | cons x xs ih =>
    intro b
    cases b with
    | nil => simp [strCmpAux]
    | cons y ys =>
      simp only [strCmpAux]
      split_ifs with h1 h2
      · refine iff_of_false (by norm_num) ?_
        simp [ne_of_lt h1]
      · refine iff_of_false (by norm_num) ?_
        simp [(ne_of_lt h2).symm]
      · have hxy : x = y := le_antisymm (not_lt.mp h2) (not_lt.mp h1)
        subst hxy
        simp [ih]

theorem strCmpAux_antisym : ∀ (a b : List Char), strCmpAux a b = -strCmpAux b a := by
  intro a
  induction a with
  | nil => intro b; cases b <;> simp [strCmpAux]
  | cons x xs ih =>
    intro b
    cases b with
    | nil => simp [strCmpAux]
    | cons y ys =>
      simp only [strCmpAux]
      rcases lt_trichotomy x y with h | h | h
      · rw [if_pos h, if_neg (lt_asymm h), if_pos h]
      · subst h
        rw [if_neg (lt_irrefl x), if_neg (lt_irrefl x), if_neg (lt_irrefl x),
          if_neg (lt_irrefl x)]
        exact ih ys
      · rw [if_neg (lt_asymm h), if_pos h, if_pos h]
        norm_num

theorem strCmpAux_lt_trans :
    ∀ {a b c : List Char}, strCmpAux a b < 0 → strCmpAux b c < 0 → strCmpAux a c < 0 := by
  intro a
  induction a with
  | nil =>
    intro b c hab hbc
    cases c with
    | nil =>
      exfalso
      cases b with
      | nil => simp [strCmpAux] at hab
      | cons y ys =>
        simp only [strCmpAux] at hbc
        omega
    | cons z zs => simp [strCmpAux]
  | cons x xs ih =>
    intro b c hab hbc
    cases b with
    | nil => simp [strCmpAux] at hab
    | cons y ys =>
      cases c with
      | nil => simp [strCmpAux] at hbc
      | cons z zs =>
        simp only [strCmpAux] at hab hbc ⊢
        rcases lt_trichotomy x y with h1 | h1 | h1
        · rcases lt_trichotomy y z with h2 | h2 | h2
          · rw [if_pos (lt_trans h1 h2)]; norm_num
          · subst h2; rw [if_pos h1]; norm_num
          · -- y > z would make strCmpAux (y::ys) (z::zs) = 1, contradiction
            rw [if_neg (lt_asymm h2), if_pos h2] at hbc
            omega
        · subst h1
          rcases lt_trichotomy x z with h2 | h2 | h2
          · rw [if_pos h2]; norm_num
          · subst h2
            rw [if_neg (lt_irrefl x), if_neg (lt_irrefl x)] at hab hbc ⊢
            exact ih hab hbc
          · rw [if_neg (lt_asymm h2), if_pos h2] at hbc
            omega
        · rw [if_neg (lt_asymm h1), if_pos h1] at hab
          omega

theorem localeCompare_eq_zero_iff {s t : String} : localeCompare s t = 0 ↔ s = t := by
  unfold localeCompare
  rw [strCmpAux_eq_zero_iff]
  exact ⟨fun h => String.ext h, fun h => by rw [h]⟩

theorem localeCompare_antisym (s t : String) : localeCompare s t = -localeCompare t s :=
  strCmpAux_antisym _ _

theorem localeCompare_lt_trans {s t u : String} :
    localeCompare s t < 0 → localeCompare t u < 0 → localeCompare s u < 0 :=
  strCmpAux_lt_trans

theorem localeCompare_self (s : String) : localeCompare s s = 0 :=
  localeCompare_eq_zero_iff.mpr rfl

theorem strCmpAux_cases : ∀ (a b : List Char),
    strCmpAux a b = -1 ∨ strCmpAux a b = 0 ∨ strCmpAux a b = 1 := by
  intro a
  induction a with
  | nil => intro b; cases b <;> simp [strCmpAux]
  | cons x xs ih =>
    intro b
    cases b with
    | nil => simp [strCmpAux]
    | cons y ys =>
      simp only [strCmpAux]
      split_ifs with h1 h2
      · exact Or.inl rfl
      · exact Or.inr (Or.inr rfl)
      · exact ih ys

theorem localeCompare_cases (s t : String) :
    localeCompare s t = -1 ∨ localeCompare s t = 0 ∨ localeCompare s t = 1 :=
  strCmpAux_cases _ _

theorem compareTokensAux_self : ∀ (a : List String), compareTokensAux a a = 0 := by
  intro a
  induction a with
  | nil => rfl
  | cons x xs ih => simp [compareTokensAux, localeCompare_self, ih]

theorem compareTokens_eq_cmpFull (a b : List String) :
    compareTokens a b = cmpFull a b := by
  unfold compareTokens cmpFull
  by_cases h : a = b
  · subst h
    simp [compareTokensAux_self]
  · simp [h]

theorem cmpFull_cons_eq {x y : String} (h : localeCompare x y = 0) (xs ys : List String) :
    cmpFull (x :: xs) (y :: ys) = cmpFull xs ys := by
  unfold cmpFull
  have haux : compareTokensAux (x :: xs) (y :: ys) = compareTokensAux xs ys := by
    simp [compareTokensAux, h]
  rw [haux]
  split_ifs with h1
  · simp only [List.length_cons]
    push_cast
    omega
  · rfl

theorem cmpFull_cons_ne {x y : String} (h : localeCompare x y ≠ 0) (xs ys : List String) :
    cmpFull (x :: xs) (y :: ys) = localeCompare x y := by
  unfold cmpFull
  have haux : compareTokensAux (x :: xs) (y :: ys) = localeCompare x y := by
    simp [compareTokensAux, h]
  rw [haux, if_neg h]

theorem cmpFull_nil (b : List String) : cmpFull [] b = -(b.length : Int) := by
  unfold cmpFull compareTokensAux
  simp

theorem cmpFull_nil' (a : List String) : cmpFull a [] = (a.length : Int) := by
  unfold cmpFull
  cases a <;> simp [compareTokensAux]

theorem compareTokensAux_antisym :
    ∀ (a b : List String), compareTokensAux a b = -compareTokensAux b a := by
  intro a
  induction a with
  | nil => intro b; cases b <;> simp [compareTokensAux]
  | cons x xs ih =>
    intro b
    cases b with
    | nil => simp [compareTokensAux]
    | cons y ys =>
      simp only [compareTokensAux]
      by_cases h : localeCompare x y = 0
      · have h' : localeCompare y x = 0 := by
          rw [localeCompare_antisym] at h
          omega
        rw [if_pos h, if_pos h']
        exact ih ys
      · have h' : localeCompare y x ≠ 0 := by
          rw [localeCompare_antisym] at h
          omega
        rw [if_neg h, if_neg h']
        exact localeCompare_antisym x y

theorem cmpFull_antisym (a b : List String) : cmpFull a b = -cmpFull b a := by
  unfold cmpFull
  rw [compareTokensAux_antisym a b]
  by_cases h : compareTokensAux b a = 0
  · simp [h]
  · rw [if_neg (by omega), if_neg h]

theorem compareTokens_antisym (a b : List String) :
    compareTokens a b = -compareTokens b a := by
  rw [compareTokens_eq_cmpFull, compareTokens_eq_cmpFull]
  exact cmpFull_antisym a b

theorem cmpFull_eq_zero_iff : ∀ {a b : List String}, cmpFull a b = 0 ↔ a = b := by
  intro a
  induction a with
  | nil =>
    intro b
    cases b with
    | nil => simp [cmpFull, compareTokensAux]
    | cons y ys =>
      simp only [cmpFull_nil]
      constructor
      · intro h
        rw [List.length_cons] at h
        exfalso
        omega
      · intro h
        exact absurd h (by simp)
  | cons x xs ih =>
    intro b
    cases b with
    | nil =>
      rw [cmpFull_nil']
      constructor
      · intro h
        rw [List.length_cons] at h
        exfalso
        omega
      · intro h
        exact absurd h (by simp)
    | cons y ys =>
      by_cases h : localeCompare x y = 0
      · have hxy : x = y := localeCompare_eq_zero_iff.mp h
        rw [cmpFull_cons_eq h, ih]
        simp [hxy]
      · rw [cmpFull_cons_ne h]
        have hxy : x ≠ y := fun he => h (by rw [he]; exact localeCompare_self y)
        simp [h, hxy]

theorem compareTokens_eq_zero_iff {a b : List String} : compareTokens a b = 0 ↔ a = b := by
  rw [compareTokens_eq_cmpFull]
  exact cmpFull_eq_zero_iff

theorem cmpFull_lt_trans :
    ∀ {a b c : List String}, cmpFull a b < 0 → cmpFull b c < 0 → cmpFull a c < 0 := by
  intro a
  induction a with
  | nil =>
    intro b c hab hbc
    rw [cmpFull_nil]
    cases c with
    | nil =>
      exfalso
      rw [cmpFull_nil'] at hbc
      omega
    | cons z zs =>
      rw [List.length_cons]
      push_cast
      omega
  | cons x xs ih =>
    intro b c hab hbc
    cases b with
    | nil =>
      exfalso
      rw [cmpFull_nil', List.length_cons] at hab
      omega
    | cons y ys =>
      cases c with
      | nil =>
        exfalso
        rw [cmpFull_nil', List.length_cons] at hbc
        omega
      | cons z zs =>
        by_cases hxy : localeCompare x y = 0
        · rw [cmpFull_cons_eq hxy] at hab
          by_cases hyz : localeCompare y z = 0
          · rw [cmpFull_cons_eq hyz] at hbc
            have hxz : localeCompare x z = 0 := by
              rw [localeCompare_eq_zero_iff.mp hxy, localeCompare_eq_zero_iff.mp hyz]
              exact localeCompare_self z
            rw [cmpFull_cons_eq hxz]
            exact ih hab hbc
          · rw [cmpFull_cons_ne hyz] at hbc
            have hxz : localeCompare x z = localeCompare y z := by
              rw [localeCompare_eq_zero_iff.mp hxy]
            rw [cmpFull_cons_ne (by omega), hxz]
            exact hbc
        · rw [cmpFull_cons_ne hxy] at hab
          by_cases hyz : localeCompare y z = 0
          · have hxz : localeCompare x z = localeCompare x y := by
              rw [← localeCompare_eq_zero_iff.mp hyz]
            rw [cmpFull_cons_ne (by omega), hxz]
            exact hab
          · rw [cmpFull_cons_ne hyz] at hbc
            have hxz : localeCompare x z < 0 := localeCompare_lt_trans hab hbc
            rw [cmpFull_cons_ne (by omega)]
            exact hxz

theorem compareTokens_lt_trans {a b c : List String} :
    compareTokens a b < 0 → compareTokens b c < 0 → compareTokens a c < 0 := by
  rw [compareTokens_eq_cmpFull, compareTokens_eq_cmpFull, compareTokens_eq_cmpFull]
  exact cmpFull_lt_trans

theorem compareCriterion_eq_zero_iff :
    ∀ {a b : Criterion}, compareCriterion a b = 0 ↔ a = b := by
  intro a b
  cases a <;> cases b <;> simp [compareCriterion]
  · omega
  · exact localeCompare_eq_zero_iff
  · exact compareTokens_eq_zero_iff

theorem compareCriterion_antisym (a b : Criterion) :
    compareCriterion a b = -compareCriterion b a := by
  cases a <;> cases b <;> simp only [compareCriterion] <;>
    first
      | omega
      | exact localeCompare_antisym _ _
      | exact compareTokens_antisym _ _

theorem compareCriterion_lt_trans : ∀ {a b c : Criterion},
    compareCriterion a b < 0 → compareCriterion b c < 0 → compareCriterion a c < 0 := by
  intro a b c
  cases a <;> cases b <;> cases c <;> simp only [compareCriterion] <;> intro h1 h2 <;>
    first
      | omega
      | exact localeCompare_lt_trans h1 h2
      | exact compareTokens_lt_trans h1 h2

theorem cmpCriteria_antisym : ∀ (a b : List Criterion),
    cmpCriteria a b = -cmpCriteria b a := by
  intro a
  induction a with
  | nil => intro b; cases b <;> simp [cmpCriteria]
  | cons x xs ih =>
    intro b
    cases b with
    | nil => simp [cmpCriteria]
    | cons y ys =>
      simp only [cmpCriteria]
      by_cases h : compareCriterion x y = 0
      · have h' : compareCriterion y x = 0 := by
          rw [compareCriterion_antisym] at h
          omega
        rw [if_pos h, if_pos h']
        exact ih ys
      · have h' : compareCriterion y x ≠ 0 := by
          rw [compareCriterion_antisym] at h
          omega
        rw [if_neg h, if_neg h']
        exact compareCriterion_antisym x y

theorem cmpCriteria_eq_zero_iff : ∀ {a b : List Criterion},
    a.length = b.length → (cmpCriteria a b = 0 ↔ a = b) := by
  intro a
  induction a with
  | nil =>
    intro b hlen
    cases b with
    | nil => simp [cmpCriteria]
    | cons y ys => simp at hlen
  | cons x xs ih =>
    intro b hlen
    cases b with
    | nil => simp at hlen
    | cons y ys =>
      simp only [List.length_cons, Nat.add_right_cancel_iff] at hlen
      simp only [cmpCriteria]
      by_cases h : compareCriterion x y = 0
      · have hxy : x = y := compareCriterion_eq_zero_iff.mp h
        rw [if_pos h, ih hlen]
        simp [hxy]
      · rw [if_neg h]
        have hxy : x ≠ y := fun he => h (compareCriterion_eq_zero_iff.mpr he)
        simp [h, hxy]

theorem cmpCriteria_self (a : List Criterion) : cmpCriteria a a = 0 :=
  (cmpCriteria_eq_zero_iff rfl).mpr rfl

theorem cmpCriteria_lt_trans : ∀ {a b c : List Criterion},
    a.length = b.length → b.length = c.length →
    cmpCriteria a b < 0 → cmpCriteria b c < 0 → cmpCriteria a c < 0 := by
  intro a
  induction a with
  | nil =>
    intro b c hab hbc h1 h2
    cases b with
    | nil => simp [cmpCriteria] at h1
    | cons y ys => simp at hab
  | cons x xs ih =>
    intro b c hab hbc h1 h2
    cases b with
    | nil => simp at hab
    | cons y ys =>
      cases c with
      | nil => simp at hbc
      | cons z zs =>
        simp only [List.length_cons, Nat.add_right_cancel_iff] at hab hbc
        simp only [cmpCriteria] at h1 h2 ⊢
        by_cases hxy : compareCriterion x y = 0
        · rw [if_pos hxy] at h1
          have hx : x = y := compareCriterion_eq_zero_iff.mp hxy
          by_cases hyz : compareCriterion y z = 0
          · rw [if_pos hyz] at h2
            have hy : y = z := compareCriterion_eq_zero_iff.mp hyz
            have hxz : compareCriterion x z = 0 :=
              compareCriterion_eq_zero_iff.mpr (hx.trans hy)
            rw [if_pos hxz]
            exact ih hab hbc h1 h2
          · rw [if_neg hyz] at h2
            have hxz : compareCriterion x z = compareCriterion y z := by rw [hx]
            rw [if_neg (by omega), hxz]
            exact h2
        · rw [if_neg hxy] at h1
          by_cases hyz : compareCriterion y z = 0
          · have hy : y = z := compareCriterion_eq_zero_iff.mp hyz
            have hxz : compareCriterion x z = compareCriterion x y := by rw [← hy]
            rw [if_neg (by omega), hxz]
            exact h1
          · rw [if_neg hyz] at h2
            have hxz : compareCriterion x z < 0 := compareCriterion_lt_trans h1 h2
            rw [if_neg (by omega)]
            exact hxz

theorem cmpCriteria_le_trans {a b c : List Criterion}
    (hab : a.length = b.length) (hbc : b.length = c.length)
    (h1 : cmpCriteria a b ≤ 0) (h2 : cmpCriteria b c ≤ 0) : cmpCriteria a c ≤ 0 := by
  rcases lt_or_eq_of_le h1 with h1' | h1'
  · rcases lt_or_eq_of_le h2 with h2' | h2'
    · exact le_of_lt (cmpCriteria_lt_trans hab hbc h1' h2')
    · have : b = c := (cmpCriteria_eq_zero_iff hbc).mp h2'
      rw [← this]
      exact h1
  · have : a = b := (cmpCriteria_eq_zero_iff hab).mp h1'
    rw [this]
    exact h2

/-- Splitting a criteria comparison at an aligned prefix boundary. -/
theorem cmpCriteria_append : ∀ {a c : List Criterion} (b d : List Criterion),
    a.length = c.length →
    cmpCriteria (a ++ b) (c ++ d) =
      if cmpCriteria a c = 0 then cmpCriteria b d else cmpCriteria a c := by
  intro a
  induction a with
  | nil =>
    intro c b d hlen
    cases c with
    | nil => simp [cmpCriteria]
    | cons z zs => simp at hlen
  | cons x xs ih =>
    intro c b d hlen
    cases c with
    | nil => simp at hlen
    | cons z zs =>
      simp only [List.length_cons, Nat.add_right_cancel_iff] at hlen
      simp only [List.cons_append, cmpCriteria, List.append_eq]
      by_cases h : compareCriterion x z = 0
      · rw [if_pos h, if_pos h, ih b d hlen]
      · rw [if_neg h, if_neg h, if_neg h]

theorem mem_insertOrdered (le : α → α → Bool) (a x : α) :
    ∀ (l : List α), x ∈ insertOrdered le a l ↔ x = a ∨ x ∈ l := by
  intro l
  induction l with
  | nil => simp [insertOrdered]
  | cons b l ih =>
    simp only [insertOrdered]
    split_ifs with h
    · rw [List.mem_cons, ih, List.mem_cons]
      tauto
    · rw [List.mem_cons]

theorem pairwise_insertOrdered {le : α → α → Bool} {R : α → α → Prop}
    (hle : ∀ a b, le a b = true → R a b)
    (htot : ∀ a b, le a b = true ∨ le b a = true)
    (htrans : ∀ a b c, R a b → R b c → R a c) (a : α) :
    ∀ {l : List α}, l.Pairwise R → (insertOrdered le a l).Pairwise R := by
  intro l
  induction l with
  | nil =>
    intro _
    simp [insertOrdered]
  | cons b l ih =>
    intro hp
    rw [List.pairwise_cons] at hp
    obtain ⟨hb, hl⟩ := hp
    simp only [insertOrdered]
    split_ifs with h
    · rw [List.pairwise_cons]
      refine ⟨?_, ih hl⟩
      intro x hx
      rw [mem_insertOrdered] at hx
      rcases hx with rfl | hx
      · exact hle _ _ h
      · exact hb x hx
    · have hab : R a b := by
        rcases htot b a with h' | h'
        · exact absurd h' h
        · exact hle _ _ h'
      rw [List.pairwise_cons]
      constructor
      · intro x hx
        rcases List.mem_cons.mp hx with rfl | hx
        · exact hab
        · exact htrans a b x hab (hb x hx)
      · rw [List.pairwise_cons]
        exact ⟨hb, hl⟩

theorem pairwise_stableSort {le : α → α → Bool} {R : α → α → Prop}
    (hle : ∀ a b, le a b = true → R a b)
    (htot : ∀ a b, le a b = true ∨ le b a = true)
    (htrans : ∀ a b c, R a b → R b c → R a c) (l : List α) :
    (stableSort le l).Pairwise R := by
  suffices h : ∀ (l acc : List α), acc.Pairwise R →
      (l.foldl (fun acc a => insertOrdered le a acc) acc).Pairwise R by
    exact h l [] List.Pairwise.nil
  intro l
  induction l with
  | nil =>
    intro acc hacc
    exact hacc
  | cons x xs ih =>
    intro acc hacc
    exact ih _ (pairwise_insertOrdered hle htot htrans x hacc)

theorem insertOrdered_of_all_le {le : α → α → Bool} {a : α} :
    ∀ {l : List α}, (∀ b ∈ l, le b a = true) → insertOrdered le a l = l ++ [a] := by
  intro l
  induction l with
  | nil => intro _; rfl
  | cons b l ih =>
    intro h
    simp only [insertOrdered]
    rw [if_pos (h b (List.mem_cons_self b l))]
    rw [ih fun x hx => h x (List.mem_cons_of_mem b hx)]
    rfl

theorem stableSort_of_pairwise {le : α → α → Bool} :
    ∀ {l : List α}, l.Pairwise (fun a b => le a b = true) → stableSort le l = l := by
  intro l
  induction l using List.reverseRecOn with
  | nil => intro _; rfl
  | append_singleton l a ih =>
    intro hp
    have hsort : stableSort le l = l :=
      ih (hp.sublist (List.sublist_append_left l [a]))
    have hall : ∀ b ∈ l, le b a = true := by
      rw [List.pairwise_append] at hp
      intro b hb
      exact hp.2.2 b hb a (List.mem_singleton_self a)
    have hstep : stableSort le (l ++ [a]) = insertOrdered le a (stableSort le l) := by
      unfold stableSort
      rw [List.foldl_append]
      rfl
    rw [hstep, hsort, insertOrdered_of_all_le hall]

/-- A stable sort under a total, transitive boolean relation is
idempotent. -/
theorem stableSort_idempotent {le : α → α → Bool}
    (htot : ∀ a b, le a b = true ∨ le b a = true)
    (htrans : ∀ a b c, le a b = true → le b c = true → le a c = true) (l : List α) :
    stableSort le (stableSort le l) = stableSort le l :=
  stableSort_of_pairwise
    (pairwise_stableSort (fun _ _ h => h) htot (fun a b c => htrans a b c) l)

/-! ## Comparator infrastructure: antisymmetry, totality, transitivity -/
theorem compareTabsOrder_antisym (m : Nat) (a b : TabProps) :
    compareTabsOrder m a b = -compareTabsOrder m b a :=
  cmpCriteria_antisym _ _

theorem criteria_length (m : Nat) (a b : TabProps) :
    (criteria m a).length = (criteria m b).length := by
  unfold criteria criteriaBase
  split_ifs <;> rfl

theorem firstDiff_antisym : ∀ (a b : List String) (i : Nat),
    (firstDiff a b i).1 = -(firstDiff b a i).1 ∧ (firstDiff a b i).2 = (firstDiff b a i).2 := by
  intro a
  induction a with
  | nil =>
    intro b i
    cases b <;> simp [firstDiff]
  | cons x xs ih =>
    intro b i
    cases b with
    | nil => simp [firstDiff]
    | cons y ys =>
      simp only [firstDiff]
      by_cases h : localeCompare x y = 0
      · have h' : localeCompare y x = 0 := by
          rw [localeCompare_antisym] at h
          omega
        rw [if_pos h, if_pos h']
        exact ih ys (i + 1)
      · have h' : localeCompare y x ≠ 0 := by
          rw [localeCompare_antisym] at h
          omega
        rw [if_neg h, if_neg h']
        exact ⟨localeCompare_antisym x y, rfl⟩

theorem autoTitleQueryHash_antisym (a b : TabProps) :
    autoTitleQueryHash a b = -autoTitleQueryHash b a := by
  unfold autoTitleQueryHash
  have ht := localeCompare_antisym a.title b.title
  have hq := localeCompare_antisym a.queryString b.queryString
  have hh := localeCompare_antisym a.hash b.hash
  split_ifs <;> omega

theorem autoTail_antisym (a b : TabProps) : autoTail a b = -autoTail b a := by
  unfold autoTail
  obtain ⟨hr, hi⟩ := firstDiff_antisym (pathnameTokens a) (pathnameTokens b) 0
  have hs := localeCompare_antisym (maybeSlug a) (maybeSlug b)
  have htq := autoTitleQueryHash_antisym a b
  rw [hi]
  by_cases hd : ((pathnameTokens a).length : Int) - ((pathnameTokens b).length : Int) = 0
  · rw [if_neg (by omega : ¬((pathnameTokens a).length : Int) -
      ((pathnameTokens b).length : Int) ≠ 0),
      if_neg (by omega : ¬((pathnameTokens b).length : Int) -
      ((pathnameTokens a).length : Int) ≠ 0)]
    by_cases hr0 : (firstDiff (pathnameTokens a) (pathnameTokens b) 0).1 = 0
    · rw [if_neg (fun h => h.1 hr0),
        if_neg (fun h => h.1 (by omega :
          (firstDiff (pathnameTokens b) (pathnameTokens a) 0).1 = 0))]
      exact htq
    · by_cases hcnd : (firstDiff (pathnameTokens b) (pathnameTokens a) 0).2 > 1 ∧
        maybeSlug a ≠ "" ∧ maybeSlug b ≠ ""
      · rw [if_pos ⟨hr0, hcnd.1, hcnd.2.1, hcnd.2.2⟩,
          if_pos ⟨by omega, hcnd.1, hcnd.2.2, hcnd.2.1⟩]
        exact hs
      · rw [if_neg (fun h => hcnd ⟨h.2.1, h.2.2.1, h.2.2.2⟩),
          if_neg (fun h => hcnd ⟨h.2.1, h.2.2.2, h.2.2.1⟩)]
        exact htq
  · rw [if_pos hd, if_pos (by omega : ((pathnameTokens b).length : Int) -
      ((pathnameTokens a).length : Int) ≠ 0)]
    by_cases hr0 : (firstDiff (pathnameTokens a) (pathnameTokens b) 0).1 = 0
    · rw [if_neg (by omega : ¬(firstDiff (pathnameTokens a) (pathnameTokens b) 0).1 ≠ 0),
        if_neg (by omega : ¬(firstDiff (pathnameTokens b) (pathnameTokens a) 0).1 ≠ 0)]
      omega
    · rw [if_pos hr0,
        if_pos (by omega : (firstDiff (pathnameTokens b) (pathnameTokens a) 0).1 ≠ 0)]
      omega

theorem compareTabsOrderAuto_antisym (a b : TabProps) :
    compareTabsOrderAuto a b = -compareTabsOrderAuto b a := by
  unfold compareTabsOrderAuto
  have hb := compareTabsOrder_antisym 4 a b
  by_cases h : compareTabsOrder 4 a b = 0
  · rw [if_neg (by omega : ¬compareTabsOrder 4 a b ≠ 0),
      if_neg (by omega : ¬compareTabsOrder 4 b a ≠ 0)]
    exact autoTail_antisym a b
  · rw [if_pos h, if_pos (by omega : compareTabsOrder 4 b a ≠ 0)]
    omega

theorem orderCompare_antisym (m : Nat) (a b : TabProps) :
    orderCompare m a b = -orderCompare m b a := by
  unfold orderCompare
  split_ifs
  · exact compareTabsOrderAuto_antisym a b
  · exact compareTabsOrder_antisym m a b

/-- The boolean relation `sortTabs` sorts by is total, for every mode. -/
theorem orderLe_total (m : Nat) (a b : TabProps) :
    decide (orderCompare m a b ≤ 0) = true ∨ decide (orderCompare m b a ≤ 0) = true := by
  have h := orderCompare_antisym m a b
  rcases le_or_lt (orderCompare m a b) 0 with h' | h'
  · exact Or.inl (decide_eq_true h')
  · exact Or.inr (decide_eq_true (by omega))

/-- For every mode other than `auto`, the comparator's non-strict order
is transitive. -/
theorem orderLe_trans_of_ne_four {m : Nat} (hm : m ≠ 4) (a b c : TabProps) :
    orderCompare m a b ≤ 0 → orderCompare m b c ≤ 0 → orderCompare m a c ≤ 0 := by
  unfold orderCompare
  simp only [if_neg hm]
  exact fun h1 h2 =>
    cmpCriteria_le_trans (criteria_length m a b) (criteria_length m b c) h1 h2

theorem sameFamily_refl (a : TabProps) : sameFamily a a := ⟨rfl, rfl, rfl, rfl⟩

theorem leadCriteria_eq_iff {a b : TabProps} :
    leadCriteria a = leadCriteria b ↔ sameFamily a b := by
  unfold leadCriteria sameFamily
  simp

theorem criteria_one_eq (t : TabProps) : criteria 1 t =
    leadCriteria t ++ [boolNum (hasPathname t), .str t.title, .toks (pathnameTokens t),
      .str t.queryString, .str t.hash] := rfl

theorem criteria_two_eq (t : TabProps) : criteria 2 t =
    leadCriteria t ++ [boolNum (hasPathname t), .toks (pathnameTokens t),
      .str t.queryString, .str t.hash, .str t.title] := rfl

theorem criteria_four_eq (t : TabProps) : criteria 4 t = leadCriteria t := rfl

theorem leadLe_trans (a b c : TabProps) : leadLe a b → leadLe b c → leadLe a c := by
  intro h1 h2
  exact cmpCriteria_le_trans
    (show (leadCriteria a).length = (leadCriteria b).length from rfl)
    (show (leadCriteria b).length = (leadCriteria c).length from rfl) h1 h2

theorem leadLe_antisymm {a b : TabProps} (h1 : leadLe a b) (h2 : leadLe b a) :
    sameFamily a b := by
  unfold leadLe at h1 h2
  rw [cmpCriteria_antisym] at h2
  have h0 : cmpCriteria (leadCriteria a) (leadCriteria b) = 0 := by omega
  exact leadCriteria_eq_iff.mp ((cmpCriteria_eq_zero_iff
    (show (leadCriteria a).length = (leadCriteria b).length from rfl)).mp h0)

/-- In modes 1, 2 and 4 the order comparator refines the leading
criteria comparison. -/
theorem orderLe_implies_leadLe {m : Nat} (hm : m = 1 ∨ m = 2 ∨ m = 4) (a b : TabProps)
    (h : orderCompare m a b ≤ 0) : leadLe a b := by
  unfold leadLe
  by_cases h0 : cmpCriteria (leadCriteria a) (leadCriteria b) = 0
  · omega
  · rcases hm with rfl | rfl | rfl
    · unfold orderCompare compareTabsOrder at h
      rw [if_neg (by omega : ¬(1 : Nat) = 4), criteria_one_eq, criteria_one_eq,
        cmpCriteria_append _ _
          (show (leadCriteria a).length = (leadCriteria b).length from rfl),
        if_neg h0] at h
      exact h
    · unfold orderCompare compareTabsOrder at h
      rw [if_neg (by omega : ¬(2 : Nat) = 4), criteria_two_eq, criteria_two_eq,
        cmpCriteria_append _ _
          (show (leadCriteria a).length = (leadCriteria b).length from rfl),
        if_neg h0] at h
      exact h
    · unfold orderCompare compareTabsOrderAuto compareTabsOrder at h
      rw [criteria_four_eq, criteria_four_eq] at h
      rw [if_pos h0] at h
      exact h

theorem pairwise_leadLe_sortTabs {m : Nat} (hm : m = 1 ∨ m = 2 ∨ m = 4)
    (l : List TabProps) : (sortTabs m l).Pairwise leadLe := by
  unfold sortTabs
  refine pairwise_stableSort ?_ ?_ leadLe_trans l
  · intro a b h
    exact orderLe_implies_leadLe hm a b (of_decide_eq_true h)
  · intro a b
    rcases orderLe_total m a b with h | h
    · exact Or.inl h
    · exact Or.inr h

/-! ## Claims -/
/-- C1 counterexample: two identical inactive descriptors at original
tab indices 2 and 5 compare equal under the Similarity Comparator, but
when it receives them as `(tab@2, tab@5)` it marks the tab at index 2 —
the lower index — as the duplicate and leaves the tab at index 5
unmarked, and in the opposite argument order `(tab@5, tab@2)` it marks
neither tab. This falsifies "the higher original tab index is the one
marked", "exactly one of the two is marked", and the independence from
argument order. -/
theorem C1_counterexample :
    (compareTabsSimilarity { exTab with index := 2, id := 1 }
        { exTab with index := 5, id := 2 }).1 = 0 ∧
    (compareTabsSimilarity { exTab with index := 2, id := 1 }
        { exTab with index := 5, id := 2 }).2.1.isDuplicate = true ∧
    (compareTabsSimilarity { exTab with index := 2, id := 1 }
        { exTab with index := 5, id := 2 }).2.2.isDuplicate = false ∧
    (compareTabsSimilarity { exTab with index := 5, id := 2 }
        { exTab with index := 2, id := 1 }).2.1.isDuplicate = false ∧
    (compareTabsSimilarity { exTab with index := 5, id := 2 }
        { exTab with index := 2, id := 1 }).2.2.isDuplicate = false := by
  decide

/-- C1 (amended): when two descriptors compare equal under the
Similarity Comparator, the marking depends on the argument order: the
second argument is marked iff the first is active; the first argument is
marked iff it is inactive and either the second is active or the first
has the *lower* original tab index; when both are inactive and the first
argument has the higher index, neither is marked. An active first
argument is never marked, and an inactive pair passed as
(lower index, higher index) gets its lower-index member marked. -/
theorem C1_amended (a b : TabProps)
    (h : cmpCriteria (criteriaBase a) (criteriaBase b) = 0) :
    ((compareTabsSimilarity a b).1 = 0) ∧
    ((compareTabsSimilarity a b).2.2.isDuplicate =
      (b.isDuplicate || a.isActive)) ∧
    ((compareTabsSimilarity a b).2.1.isDuplicate =
      (a.isDuplicate || (!a.isActive && (b.isActive || decide (a.index < b.index))))) ∧
    (a.isActive = true → (compareTabsSimilarity a b).2.1 = a) ∧
    (a.isActive = false → b.isActive = false → b.index < a.index →
      (compareTabsSimilarity a b).2.1 = a ∧ (compareTabsSimilarity a b).2.2 = b) := by
  unfold compareTabsSimilarity
  rw [if_pos h]
  by_cases ha : a.isActive
  · rw [if_pos ha]
    simp [ha, h]
  · rw [if_neg ha]
    simp only [Bool.not_eq_true] at ha
    by_cases hb : b.isActive = true ∨ a.index < b.index
    · rw [if_pos hb]
      rcases hb with hb | hb
      · simp [ha, hb, h]
      · refine ⟨h, by simp [ha], by simp [ha, decide_eq_true hb], ?_, ?_⟩
        · intro hcon
          simp [ha] at hcon
        · intro _ _ hlt
          omega
    · rw [if_neg hb]
      push_neg at hb
      obtain ⟨hb1, hb2⟩ := hb
      simp [ha, hb1, h, decide_eq_false (by omega : ¬a.index < b.index)]

/-- C1 witness: the amended statement evaluated on the two inactive
identical descriptors at indices 2 and 5. -/
theorem C1_witness :
    (compareTabsSimilarity { exTab with index := 2, id := 1 }
        { exTab with index := 5, id := 2 }).2.1.isDuplicate = true ∧
    (compareTabsSimilarity { exTab with index := 2, id := 1 }
        { exTab with index := 5, id := 2 }).2.2.isDuplicate = false := by
  have h := C1_amended { exTab with index := 2, id := 1 }
    { exTab with index := 5, id := 2 } (by decide)
  refine ⟨?_, ?_⟩
  · rw [h.2.2.1]
    decide
  · rw [h.2.1]
    decide

theorem cmpCriteria_cons_zero {x y : Criterion} (h : compareCriterion x y = 0)
    (xs ys : List Criterion) : cmpCriteria (x :: xs) (y :: ys) = cmpCriteria xs ys := by
  simp [cmpCriteria, h]

theorem cmpCriteria_cons_ne {x y : Criterion} (h : compareCriterion x y ≠ 0)
    (xs ys : List Criterion) : cmpCriteria (x :: xs) (y :: ys) = compareCriterion x y := by
  simp [cmpCriteria, h]

/-- C2 counterexample: two descriptors identical except for their
schemes, `http:` versus `https:`. In host_title_path mode the Order
Comparator returns the non-zero raw scheme comparison instead of
skipping it, so a scheme difference between two ordinary web tabs does
affect their relative order. -/
theorem C2_counterexample :
    orderCompare 1 { exTab with protocol := "http:" } exTab = -1 ∧
    orderCompare 1 exTab { exTab with protocol := "http:" } = 1 ∧
    orderCompare 1 exTab exTab = 0 := by
  decide

/-- C2 (amended): the Order Comparator never skips the scheme
comparison: in modes host_title_path, host_path_title and auto, raw
scheme strings are compared immediately after the container index for
every pair — http(s) pairs included — and decide the comparison when
they differ; in title_host_path mode the same happens after container
and title; in mode none schemes are not compared at all (only
containers are). -/
theorem C2_amended (a b : TabProps) (hc : a.containerIndex = b.containerIndex)
    (hs : localeCompare a.protocol b.protocol ≠ 0) :
    compareTabsOrder 1 a b = localeCompare a.protocol b.protocol ∧
    compareTabsOrder 2 a b = localeCompare a.protocol b.protocol ∧
    (a.title = b.title → compareTabsOrder 3 a b = localeCompare a.protocol b.protocol) ∧
    compareTabsOrderAuto a b = localeCompare a.protocol b.protocol ∧
    orderCompare 0 a b = 0 := by
  have hnum : compareCriterion (.num a.containerIndex) (.num b.containerIndex) = 0 := by
    simp [compareCriterion, hc]
  have hstr : compareCriterion (.str a.protocol) (.str b.protocol) =
      localeCompare a.protocol b.protocol := rfl
  have hmode4 : compareTabsOrder 4 a b = localeCompare a.protocol b.protocol := by
    show cmpCriteria (criteria 4 a) (criteria 4 b) = _
    rw [criteria_four_eq, criteria_four_eq]
    unfold leadCriteria
    rw [cmpCriteria_cons_zero hnum, cmpCriteria_cons_ne (by rw [hstr]; exact hs), hstr]
  refine ⟨?_, ?_, ?_, ?_, ?_⟩
  · show cmpCriteria (criteria 1 a) (criteria 1 b) = _
    rw [criteria_one_eq, criteria_one_eq]
    unfold leadCriteria
    simp only [List.cons_append, List.nil_append]
    rw [cmpCriteria_cons_zero hnum, cmpCriteria_cons_ne (by rw [hstr]; exact hs), hstr]
  · show cmpCriteria (criteria 2 a) (criteria 2 b) = _
    rw [criteria_two_eq, criteria_two_eq]
    unfold leadCriteria
    simp only [List.cons_append, List.nil_append]
    rw [cmpCriteria_cons_zero hnum, cmpCriteria_cons_ne (by rw [hstr]; exact hs), hstr]
  · intro ht
    have htitle : compareCriterion (.str a.title) (.str b.title) = 0 := by
      show localeCompare a.title b.title = 0
      rw [ht]
      exact localeCompare_self b.title
    show cmpCriteria (criteria 3 a) (criteria 3 b) = _
    unfold criteria
    rw [if_neg (by omega : ¬(3 : Nat) = 1), if_neg (by omega : ¬(3 : Nat) = 2),
      if_pos rfl, if_neg (by omega : ¬(3 : Nat) = 1), if_neg (by omega : ¬(3 : Nat) = 2),
      if_pos rfl]
    rw [cmpCriteria_cons_zero hnum, cmpCriteria_cons_zero htitle,
      cmpCriteria_cons_ne (by rw [hstr]; exact hs), hstr]
  · unfold compareTabsOrderAuto
    rw [if_pos (by rw [hmode4]; exact hs), hmode4]
  · show compareTabsOrder 0 a b = 0
    show cmpCriteria (criteria 0 a) (criteria 0 b) = 0
    unfold criteria
    norm_num
    rw [cmpCriteria_cons_zero hnum]
    rfl

/-- C2 witness: the amended statement evaluated on the concrete
`http:`/`https:` pair of otherwise identical descriptors. -/
theorem C2_witness :
    compareTabsOrder 1 { exTab with protocol := "http:" } exTab =
      localeCompare "http:" "https:" := by
  have h := C2_amended { exTab with protocol := "http:" } exTab rfl (by decide)
  exact h.1

/-- C3: the `TabProps` constructor is not total. `new URL(url || "")`
throws on an unparsable URL string — modelled by `none` — for example
for a tab with no `url` field (so `url || ""` is `""`), an empty URL
string, or a schemeless string, rather than degrading to the
empty-string field defaults. -/
theorem C3_constructor_throws :
    jsURL "" = none ∧
    jsURL "not a url" = none ∧
    TabProps.make ({ active := false, cookieStoreId := none, id := 1, index := 0,
                     status := "complete", title := none, url := none,
                     windowId := 1 : Tab }) none ⟨1, true⟩ = none ∧
    TabProps.make ({ active := true, cookieStoreId := none, id := 2, index := 3,
                     status := "complete", title := some "T", url := some "",
                     windowId := 1 : Tab }) none ⟨1, true⟩ = none ∧
    TabProps.make ({ active := false, cookieStoreId := none, id := 3, index := 1,
                     status := "loading", title := some "T",
                     url := some "no scheme here", windowId := 1 : Tab }) none
      ⟨2, false⟩ = none := by
  decide

/-- C4 counterexample: clustering by (domainTokens, tldTokens) alone
fails. (a) In host_title_path mode, two `a.com` descriptors differing
only in container index are separated by a `b.com` descriptor: the
container criterion precedes the domain criteria. (b) In
title_host_path mode, two same-container same-scheme `a.com`
descriptors with titles "a" and "z" are separated by a `b.com`
descriptor titled "m": the title criterion precedes the domain
criteria. (c) In mode `none`, only the container is compared, so
interleaved domains simply stay interleaved. -/
theorem C4_counterexample :
    (lowerDomainTokens { exTab with hostname := "a.com" } =
        lowerDomainTokens { exTab with hostname := "a.com", containerIndex := 1, id := 2 } ∧
      tldTokens { exTab with hostname := "a.com" } =
        tldTokens { exTab with hostname := "a.com", containerIndex := 1, id := 2 } ∧
      lowerDomainTokens { exTab with hostname := "b.com", id := 3 } ≠
        lowerDomainTokens { exTab with hostname := "a.com" } ∧
      sortTabs 1 [{ exTab with hostname := "a.com" },
          { exTab with hostname := "a.com", containerIndex := 1, id := 2 },
          { exTab with hostname := "b.com", id := 3 }] =
        [{ exTab with hostname := "a.com" },
          { exTab with hostname := "b.com", id := 3 },
          { exTab with hostname := "a.com", containerIndex := 1, id := 2 }]) ∧
    (sortTabs 3 [{ exTab with hostname := "a.com", title := "a" },
        { exTab with hostname := "b.com", title := "m", id := 2 },
        { exTab with hostname := "a.com", title := "z", id := 3 }] =
      [{ exTab with hostname := "a.com", title := "a" },
        { exTab with hostname := "b.com", title := "m", id := 2 },
        { exTab with hostname := "a.com", title := "z", id := 3 }]) ∧
    (sortTabs 0 [{ exTab with hostname := "a.com" },
        { exTab with hostname := "b.com", id := 2 },
        { exTab with hostname := "a.com", id := 3 }] =
      [{ exTab with hostname := "a.com" },
        { exTab with hostname := "b.com", id := 2 },
        { exTab with hostname := "a.com", id := 3 }]) := by
  decide

/-- C4 (amended): for non-pinned tabs in one window sharing the same
containerIndex, scheme, domainTokens and tldTokens, a sort in
host_title_path, host_path_title or auto mode places them in a
contiguous range of indices, regardless of their titles, paths, query
strings, or fragments. (It does not hold in title_host_path or none
mode, and it needs the shared containerIndex and scheme.) -/
theorem C4_amended {m : Nat} (hm : m = 1 ∨ m = 2 ∨ m = 4) (l : List TabProps)
    (i j k : Nat) (hij : i ≤ j) (hjk : j ≤ k) (hk : k < (sortTabs m l).length)
    (hfam : sameFamily ((sortTabs m l).getD i exTab) ((sortTabs m l).getD k exTab)) :
    sameFamily ((sortTabs m l).getD i exTab) ((sortTabs m l).getD j exTab) := by
  have hj : j < (sortTabs m l).length := lt_of_le_of_lt hjk hk
  have hi : i < (sortTabs m l).length := lt_of_le_of_lt hij hj
  rw [List.getD_eq_get _ _ hi, List.getD_eq_get _ _ hj]
  rw [List.getD_eq_get _ _ hi, List.getD_eq_get _ _ hk] at hfam
  have hp := pairwise_leadLe_sortTabs hm l
  rw [List.pairwise_iff_get] at hp
  rcases eq_or_lt_of_le hij with rfl | hij'
  · exact sameFamily_refl _
  · have h1 : leadLe ((sortTabs m l).get ⟨i, hi⟩) ((sortTabs m l).get ⟨j, hj⟩) :=
      hp ⟨i, hi⟩ ⟨j, hj⟩ hij'
    rcases eq_or_lt_of_le hjk with rfl | hjk'
    · exact hfam
    · have h2 : leadLe ((sortTabs m l).get ⟨j, hj⟩) ((sortTabs m l).get ⟨k, hk⟩) :=
        hp ⟨j, hj⟩ ⟨k, hk⟩ hjk'
      have heq : leadCriteria ((sortTabs m l).get ⟨i, hi⟩) =
          leadCriteria ((sortTabs m l).get ⟨k, hk⟩) := leadCriteria_eq_iff.mpr hfam
      have h2' : leadLe ((sortTabs m l).get ⟨j, hj⟩) ((sortTabs m l).get ⟨i, hi⟩) := by
        unfold leadLe at h2 ⊢
        rw [heq]
        exact h2
      exact leadLe_antisymm h1 h2'

/-- C4 witness: the amended statement evaluated on a concrete two-tab
window of the same family in host_title_path mode. -/
theorem C4_witness :
    sameFamily ((sortTabs 1 [exTab, { exTab with title := "t", id := 2 }]).getD 0 exTab)
      ((sortTabs 1 [exTab, { exTab with title := "t", id := 2 }]).getD 0 exTab) :=
  C4_amended (Or.inl rfl) [exTab, { exTab with title := "t", id := 2 }] 0 0 1
    (by decide) (by decide) (by decide) (by decide)

/-- C9 counterexample: with the auto-mode comparator (whose strict
order is not transitive: path token lists `["b"]` and `["a"]` of equal
length tie via the title fallback, `["a"]` precedes `["a","s"]` as a
prefix, yet `["b"]` strictly follows `["a","s"]` by its first token) a
second stable sort pass reorders the output of the first. -/
theorem C9_counterexample :
    sortTabs 4 (sortTabs 4 [{ exTab with pathname := "b" },
        { exTab with pathname := "a", id := 2 },
        { exTab with pathname := "a/s", id := 3 }]) ≠
      sortTabs 4 [{ exTab with pathname := "b" },
        { exTab with pathname := "a", id := 2 },
        { exTab with pathname := "a/s", id := 3 }] := by
  decide

/-- C9 (amended): in every sort mode except auto — none,
host_title_path, host_path_title, title_host_path, and any unmapped
mode value (which sorts by container only) — the order comparator is a
total preorder, and sorting a second time leaves the once-sorted array
unchanged. -/
theorem C9_amended {m : Nat} (hm : m ≠ 4) (l : List TabProps) :
    sortTabs m (sortTabs m l) = sortTabs m l := by
  unfold sortTabs
  refine stableSort_idempotent ?_ ?_ l
  · intro a b
    rcases orderLe_total m a b with h | h
    · exact Or.inl h
    · exact Or.inr h
  · intro a b c h1 h2
    exact decide_eq_true
      (orderLe_trans_of_ne_four hm a b c (of_decide_eq_true h1) (of_decide_eq_true h2))

/-- C9 witness: idempotence evaluated on a concrete three-tab window in
host_title_path mode. -/
theorem C9_witness :
    sortTabs 1 (sortTabs 1 [{ exTab with hostname := "b.com" },
        { exTab with hostname := "a.com", id := 2 },
        { exTab with hostname := "c.com", id := 3 }]) =
      sortTabs 1 [{ exTab with hostname := "b.com" },
        { exTab with hostname := "a.com", id := 2 },
        { exTab with hostname := "c.com", id := 3 }] :=
  C9_amended (by decide) [{ exTab with hostname := "b.com" },
    { exTab with hostname := "a.com", id := 2 },
    { exTab with hostname := "c.com", id := 3 }]

/-- C5 counterexample: a container at position 0 of the stable
enumeration receives the sentinel -1 instead of its position:
`containers.get(cookieStoreId) || -1` collapses the falsy index 0. -/
theorem C5_counterexample :
    mapGet (buildContainers ["c0", "c1"]) "c0" = some 0 ∧
    containerIndexOf (some (buildContainers ["c0", "c1"])) (some "c0") = -1 ∧
    containerIndexOf (some (buildContainers ["c0", "c1"])) (some "c0") ≠ 0 ∧
    (TabProps.make ({ active := false, cookieStoreId := some "c0", id := 1, index := 0,
                      status := "complete", title := some "t",
                      url := some "https://example.com/", windowId := 1 : Tab })
        (some (buildContainers ["c0", "c1"])) ⟨1, true⟩).map (fun p => p.containerIndex) =
      some (-1) := by
  decide

/-- C5 (amended): `containerIndex` equals the container's position in
the stable enumeration only when that position is non-zero; it is the
sentinel -1 when the container capability is absent, when the tab has no
container binding, and also when the container sits at position 0
(`0` is falsy, so `get(id) || -1` yields -1). The sentinel sorts before
every real (positive) position under the numeric criterion
comparison. -/
theorem C5_amended (m : List (String × Nat)) (cid : Option String) (k : String) (n : Nat) :
    containerIndexOf none cid = -1 ∧
    containerIndexOf (some m) none = -1 ∧
    (mapGet m k = none → containerIndexOf (some m) (some k) = -1) ∧
    (mapGet m k = some 0 → containerIndexOf (some m) (some k) = -1) ∧
    (mapGet m k = some n → n ≠ 0 → containerIndexOf (some m) (some k) = (n : Int)) ∧
    (0 < n → compareCriterion (.num (-1)) (.num (n : Int)) < 0) := by
  refine ⟨rfl, rfl, ?_, ?_, ?_, ?_⟩
  · intro h
    simp [containerIndexOf, h]
  · intro h
    simp [containerIndexOf, h]
  · intro h hn
    simp [containerIndexOf, h, hn]
  · intro h
    simp only [compareCriterion]
    omega

/-- C5 witness: the amended statement evaluated on the concrete
two-container enumeration, at the container in position 1. -/
theorem C5_witness :
    containerIndexOf (some (buildContainers ["c0", "c1"])) (some "c1") = 1 := by
  have h := C5_amended (buildContainers ["c0", "c1"]) (some "c1") "c1" 1
  exact h.2.2.2.2.1 (by decide) (by decide)

/-- C6: `splitHostname` reverses the dot-split labels; the TLD group is
the first two reversed labels exactly when there are more than 2 labels
and the reversed label at position 1 has length at most 3, and otherwise
just the first; with the two concrete examples from the spec. -/
theorem C6_splitHostname (h : String) :
    ((splitHostname h).1 ++ (splitHostname h).2 = (jsSplit h '.').reverse) ∧
    ((splitHostname h).1 =
      if 2 < ((jsSplit h '.').reverse).length ∧
          (((jsSplit h '.').reverse).getD 1 "").length ≤ 3
        then ((jsSplit h '.').reverse).take 2
        else ((jsSplit h '.').reverse).take 1) ∧
    splitHostname "www.example.co.uk" = (["uk", "co"], ["example", "www"]) ∧
    splitHostname "example.com" = (["com"], ["example"]) := by
  refine ⟨?_, ?_, by decide, by decide⟩
  · simp only [splitHostname]
    exact List.take_append_drop _ _
  · simp only [splitHostname, gt_iff_lt]
    split_ifs with hc
    · rfl
    · rfl

theorem cmpFull_of_take_eq : ∀ {a b : List String}, a.length < b.length →
    b.take a.length = a → cmpFull a b < 0 := by
  intro a
  induction a with
  | nil =>
    intro b hlen _
    rw [cmpFull_nil]
    omega
  | cons x xs ih =>
    intro b hlen htake
    cases b with
    | nil => simp at hlen
    | cons y ys =>
      rw [List.length_cons, List.take_succ_cons] at htake
      rw [List.cons.injEq] at htake
      obtain ⟨rfl, h2⟩ := htake
      rw [cmpFull_cons_eq (localeCompare_self y)]
      exact ih (by simp at hlen ⊢; omega) h2

theorem cmpFull_of_first_diff : ∀ (i : Nat) (a b : List String) (ha : i < a.length)
    (hb : i < b.length), a.take i = b.take i → a.get ⟨i, ha⟩ ≠ b.get ⟨i, hb⟩ →
    cmpFull a b = localeCompare (a.get ⟨i, ha⟩) (b.get ⟨i, hb⟩) := by
  intro i
  induction i with
  | zero =>
    intro a b ha hb _ hne
    cases a with
    | nil => simp at ha
    | cons x xs =>
      cases b with
      | nil => simp at hb
      | cons y ys =>
        simp only [List.get] at hne ⊢
        exact cmpFull_cons_ne (fun h0 => hne (localeCompare_eq_zero_iff.mp h0)) xs ys
  | succ n ih =>
    intro a b ha hb htake hne
    cases a with
    | nil => simp at ha
    | cons x xs =>
      cases b with
      | nil => simp at hb
      | cons y ys =>
        rw [List.take_succ_cons, List.take_succ_cons, List.cons.injEq] at htake
        obtain ⟨rfl, h2⟩ := htake
        simp only [List.get_cons_succ] at hne ⊢
        rw [cmpFull_cons_eq (localeCompare_self x)]
        exact ih xs ys (by simp at ha ⊢; omega) (by simp at hb ⊢; omega) h2 hne

/-- C7: `compareTokens` compares element-wise with the locale-aware
string comparison: on the first differing element it returns exactly
that element comparison (hence a value of its sign); a proper prefix
sorts strictly before the longer sequence; the result is 0 exactly on
equal sequences, in particular on `(A, A)`; with the two concrete
prefix examples from the spec. -/
theorem C7_compareTokens :
    (∀ a : List String, compareTokens a a = 0) ∧
    (∀ a b : List String, compareTokens a b = 0 ↔ a = b) ∧
    (∀ a b : List String, a.length < b.length → b.take a.length = a →
      compareTokens a b < 0 ∧ 0 < compareTokens b a) ∧
    (∀ (a b : List String) (i : Nat) (ha : i < a.length) (hb : i < b.length),
      a.take i = b.take i → a.get ⟨i, ha⟩ ≠ b.get ⟨i, hb⟩ →
      compareTokens a b = localeCompare (a.get ⟨i, ha⟩) (b.get ⟨i, hb⟩)) ∧
    compareTokens ["a"] ["a", "b"] < 0 ∧ 0 < compareTokens ["a", "b"] ["a"] := by
  refine ⟨?_, ?_, ?_, ?_, by decide, by decide⟩
  · intro a
    exact compareTokens_eq_zero_iff.mpr rfl
  · intro a b
    exact compareTokens_eq_zero_iff
  · intro a b hlen htake
    constructor
    · rw [compareTokens_eq_cmpFull]
      exact cmpFull_of_take_eq hlen htake
    · rw [compareTokens_eq_cmpFull]
      have h := cmpFull_of_take_eq hlen htake
      rw [cmpFull_antisym] at h
      omega
  · intro a b i ha hb htake hne
    rw [compareTokens_eq_cmpFull]
    exact cmpFull_of_first_diff i a b ha hb htake hne

/-- C7 witness: the prefix tie-break instantiated at a concrete proper
prefix pair. -/
theorem C7_witness : compareTokens ["x"] ["x", "y"] < 0 ∧ 0 < compareTokens ["x", "y"] ["x"] :=
  C7_compareTokens.2.2.1 ["x"] ["x", "y"] (by decide) (by decide)

/-- C8 counterexample: the "exactly one unpinned tab remains" consequent
fails for all-blank windows in two ways. (a) Two blank tabs that are
still loading (`status ≠ "complete"`) are not slated for removal, so
both remain. (b) Behind a pinned tab the first unpinned index is 1, so
no placeholder is created and removing every (complete) blank tab leaves
zero unpinned tabs. -/
theorem C8_counterexample :
    remainingUnpinned 0 true
      [{ exTab with isBlank := true, status := "loading" },
        { exTab with isBlank := true, status := "loading", id := 2 }] = 2 ∧
    remainingUnpinned 1 true
      [{ exTab with isBlank := true },
        { exTab with isBlank := true, id := 2 }] = 0 := by
  decide

/-- C8 (amended): a fresh placeholder tab is created if and only if the
first unpinned tab's index is 0 and every unpinned tab is slated for
removal (as claimed); and for a window whose unpinned tabs are all blank
placeholders *with load status complete* and whose first unpinned tab
sits at index 0, exactly one unpinned tab remains after the pass (the
freshly created placeholder). -/
theorem C8_amended (index : Int) (d : Bool) (tabs : List TabProps) :
    ((cullStage index d tabs).createdTab = true ↔
      (index = 0 ∧ ∀ t ∈ tabs,
        (t.status == "complete" && (t.isBlank || (d && t.isDuplicate))) = true)) ∧
    (index = 0 → tabs ≠ [] →
      (∀ t ∈ tabs, t.isBlank = true ∧ t.status = "complete") →
      remainingUnpinned index d tabs = 1) := by
  have hlen : (tabs.length = (unwantedTabs d tabs).length ↔
      ∀ t ∈ tabs, (t.status == "complete" && (t.isBlank || (d && t.isDuplicate))) = true) := by
    constructor
    · intro h
      exact List.filter_eq_self.mp
        (List.Sublist.eq_of_length (List.filter_sublist tabs) h.symm)
    · intro h
      unfold unwantedTabs
      rw [List.filter_eq_self.mpr h]
  constructor
  · unfold cullStage
    constructor
    · intro h
      simp only [Bool.and_eq_true, beq_iff_eq] at h
      exact ⟨h.1, hlen.mp h.2⟩
    · intro h
      simp only [Bool.and_eq_true, beq_iff_eq]
      exact ⟨h.1, hlen.mpr h.2⟩
  · intro h0 _ hall
    have hpred : ∀ t ∈ tabs,
        (t.status == "complete" && (t.isBlank || (d && t.isDuplicate))) = true := by
      intro t ht
      obtain ⟨hb, hs⟩ := hall t ht
      simp [hb, hs]
    have huw : unwantedTabs d tabs = tabs := by
      unfold unwantedTabs
      exact List.filter_eq_self.mpr hpred
    unfold remainingUnpinned cullStage
    simp [huw, h0]

/-- C8 witness: the amended statement evaluated on a concrete window of
one complete blank tab starting at index 0. -/
theorem C8_witness : remainingUnpinned 0 true [{ exTab with isBlank := true }] = 1 := by
  have h := C8_amended 0 true [{ exTab with isBlank := true }]
  exact h.2 rfl (by decide) (by decide)

/-- C10: the removal set of a pass is exactly the unpinned descriptors
with load status `"complete"` that are blank or — only with
deduplication enabled — marked duplicate; blanks are culled even in
sort-only passes, and an incomplete tab is never removed even if blank
or duplicate. -/
theorem C10_removalSet (index : Int) (d : Bool) (tabs : List TabProps) (t : TabProps) :
    (t ∈ (cullStage index d tabs).removed ↔
      (t ∈ tabs ∧ t.status = "complete" ∧
        (t.isBlank = true ∨ (d = true ∧ t.isDuplicate = true)))) ∧
    (t ∈ tabs → t.isBlank = true → t.status = "complete" →
      t ∈ (cullStage index false tabs).removed) ∧
    (t.status ≠ "complete" → t ∉ (cullStage index d tabs).removed) := by
  have hmem : ∀ d' : Bool, (t ∈ (cullStage index d' tabs).removed ↔
      (t ∈ tabs ∧
        (t.status == "complete" && (t.isBlank || (d' && t.isDuplicate))) = true)) := by
    intro d'
    unfold cullStage unwantedTabs
    exact List.mem_filter
  refine ⟨?_, ?_, ?_⟩
  · rw [hmem d]
    simp only [Bool.and_eq_true, Bool.or_eq_true, beq_iff_eq]
  · intro h1 h2 h3
    rw [hmem false]
    refine ⟨h1, ?_⟩
    simp [h2, h3]
  · intro hne hmem'
    rw [hmem d] at hmem'
    have := hmem'.2
    simp only [Bool.and_eq_true, beq_iff_eq] at this
    exact hne this.1

/-- C10 witness: a complete blank descriptor is removed by a sort-only
(deduplication disabled) pass. -/
theorem C10_witness :
    ({ exTab with isBlank := true } : TabProps) ∈
      (cullStage 5 false [{ exTab with isBlank := true }]).removed := by
  have h := C10_removalSet 5 false [{ exTab with isBlank := true }]
    { exTab with isBlank := true }
  exact h.2.1 (by decide) (by decide) (by decide)

end UniqTabs
